import Mathlib

/-!
# Verification of the faas-support exception registry

Shallow embedding of the repository's services:

* `src/services/search-exceptions/src/index.js` — the Redis-backed exception
  registry (normalize, sha256 fingerprint, occurrence counter, sorted-set index,
  the three HTTP handlers).
* `src/services/upload-service/src/index.js` — the ingestion orchestrator
  (member-file classification, HTTP client that resolves errors, the two
  workflows of `processExtractedFiles`).

The sha256 hex digest produced by node's `crypto` library is an external,
deterministic pure function of its input; it is modelled as an explicit
function parameter `hash : String → String` throughout, so every theorem
holds for an arbitrary digest.  Where the spec's collision-freeness assumption
is needed ("collisions are accepted as astronomically unlikely") a theorem
takes `Function.Injective hash` as a hypothesis.

JavaScript strings are modelled by `String`; `toLowerCase` and `trim` are
modelled on their ASCII fragment (the case mapped range `A`-`Z` and the
one-byte whitespace characters), which is the fragment the repository's data
exercises.
-/

/-- The character class removed by JavaScript's `String.prototype.trim`
(ASCII fragment: space, tab, line feed, vertical tab, form feed,
carriage return). -/
def isSpaceChar (c : Char) : Bool :=
  c = ' ' || c = '\t' || c = '\n' || c = '\x0b' || c = '\x0c' || c = '\r'

/-- `String.prototype.toLowerCase` on one character (ASCII fragment). -/
def lowerChar (c : Char) : Char :=
  if 'A' ≤ c ∧ c ≤ 'Z' then Char.ofNat (c.toNat + 32) else c

/-- `message.toLowerCase()`. -/
def jsToLower (s : String) : String :=
  ⟨s.data.map lowerChar⟩

/-- Drop leading, then trailing, whitespace of a character list. -/
def trimChars (l : List Char) : List Char :=
  ((l.dropWhile isSpaceChar).reverse.dropWhile isSpaceChar).reverse

/-- `message.trim()`. -/
def jsTrim (s : String) : String :=
  ⟨trimChars s.data⟩

/-- `normalizeMessage` of `search-exceptions/src/index.js`:
`message.toLowerCase().trim()`. -/
def normalizeMessage (message : String) : String :=
  jsTrim (jsToLower message)

/-- `hashMessage` of `search-exceptions/src/index.js`: the sha256 hex digest
of the normalized message; the digest itself is the parameter `hash`. -/
def hashMessage (hash : String → String) (message : String) : String :=
  hash (normalizeMessage message)

/-- The hash stored at the Redis key `exception:<messageHash>`: fields
`message`, `zipFile`, `timestamp` (the clock value at store time) and
`count` (stored as a decimal string; decimal round-tripping is the
identity, so it is kept as a `Nat`). -/
structure ExceptionRecord where
  message : String
  zipFile : String
  timestamp : Nat
  count : Nat
deriving DecidableEq

/-- The Redis keyspace used by the service: per-fingerprint record hashes
(`exception:<hash>`), per-fingerprint counters (`exception:<hash>:count`) and
the sorted set `exceptions:all` of fingerprints scored by `Date.now()`.
Digests have a fixed length, so the three key families never collide and are
modelled as three separate components, each keyed by the message hash. -/
structure StoreState where
  records : String → Option ExceptionRecord
  counts : String → Option Nat
  allZSet : List (String × Nat)

/-- The empty Redis database. -/
def emptyState : StoreState :=
  { records := fun _ => none, counts := fun _ => none, allZSet := [] }

/-- Point update of a keyed map. -/
def update {α : Type} (f : String → Option α) (k : String) (v : α) :
    String → Option α :=
  fun x => if x = k then some v else f x

/-- Redis `ZADD`: if the member is already present its score is updated in
place, otherwise the member is added with the given score. -/
def zAdd : List (String × Nat) → String → Nat → List (String × Nat)
  | [], m, s => [(m, s)]
  | p :: ps, m, s => if p.1 = m then (m, s) :: ps else p :: zAdd ps m s

/-- The score currently held by a member of the sorted set. -/
def scoreOf : List (String × Nat) → String → Option Nat
  | [], _ => none
  | p :: ps, m => if p.1 = m then some p.2 else scoreOf ps m

/-- Redis sorted-set ordering: ascending score, ties broken by the member
string. -/
def zle (p q : String × Nat) : Prop :=
  p.2 < q.2 ∨ (p.2 = q.2 ∧ p.1 ≤ q.1)

instance : DecidableRel zle := fun p q => by
  unfold zle; infer_instance

instance : IsTotal (String × Nat) zle := by
  constructor
  intro p q
  rcases Nat.lt_trichotomy p.2 q.2 with h | h | h
  · exact Or.inl (Or.inl h)
  · rcases le_total p.1 q.1 with h' | h'
    · exact Or.inl (Or.inr ⟨h, h'⟩)
    · exact Or.inr (Or.inr ⟨h.symm, h'⟩)
  · exact Or.inr (Or.inl h)

instance : IsTrans (String × Nat) zle := by
  constructor
  intro p q r hpq hqr
  rcases hpq with h | ⟨he, hs⟩
  · rcases hqr with h' | ⟨he', _⟩
    · exact Or.inl (h.trans h')
    · exact Or.inl (he' ▸ h)
  · rcases hqr with h' | ⟨he', hs'⟩
    · exact Or.inl (he ▸ h')
    · exact Or.inr ⟨he.trans he', hs.trans hs'⟩

/-- `ZRANGEBYSCORE exceptions:all -inf +inf`: all members, ascending by
score (ties by member). -/
def zRangeByScore (zs : List (String × Nat)) : List String :=
  (List.insertionSort zle zs).map Prod.fst

/-- Outcome of `POST /exceptions`: either the 400 validation response or the
success payload `{success, message, isDuplicate, duplicateCount}` (the two
constant fields are omitted). -/
inductive RecordResult
  | error (status : Nat) (msg : String)
  | ok (isDuplicate : Bool) (duplicateCount : Nat)
deriving DecidableEq

/-- The `POST /exceptions` handler of `search-exceptions/src/index.js`.
`now` is the value of `Date.now()` during the request (the ISO timestamp
string derived from the same clock is modelled by the same number).  A falsy
request field in JavaScript is the empty string.  Returns the state after the
request together with the response. -/
def postExceptions (hash : String → String) (st : StoreState)
    (message zipFile : String) (now : Nat) : StoreState × RecordResult :=
  if message = "" ∨ zipFile = "" then
    (st, .error 400 "Missing required fields: message, zipFile")
  else
    let messageHash := hashMessage hash message
    let count := (st.counts messageHash).getD 0 + 1
    ({ records := update st.records messageHash
         { message := message, zipFile := zipFile, timestamp := now, count := count },
       counts := update st.counts messageHash count,
       allZSet := zAdd st.allZSet messageHash now },
     .ok (decide (count > 1)) count)

/-- Outcome of `GET /exceptions/search`: the 400 validation response or
`{query, matchCount, matches, isDuplicate, duplicateCount}`.  A match is the
`hGetAll` result of the record key; `none` stands for the empty hash returned
for an absent key. -/
inductive SearchResult
  | error (status : Nat) (msg : String)
  | ok (matchCount : Nat) (matchList : List (Option ExceptionRecord))
      (isDuplicate : Bool) (duplicateCount : Nat)
deriving DecidableEq

/-- The `GET /exceptions/search` handler of `search-exceptions/src/index.js`. -/
def getExceptionsSearch (hash : String → String) (st : StoreState)
    (query : String) : SearchResult :=
  if query = "" then
    .error 400 "Missing required query parameter: query"
  else
    let messageHash := hashMessage hash query
    let exceptionData := st.records messageHash
    let count := (st.counts messageHash).getD 0
    let isDuplicate := decide (count > 0)
    let results := if count > 0 then [exceptionData] else []
    .ok results.length results isDuplicate count

/-- The `GET /exceptions` handler: every member of `exceptions:all` in
`ZRANGEBYSCORE` order, each with its counter and record; the response's
`totalUniqueExceptions` is the first component. -/
def getAllExceptions (st : StoreState) :
    Nat × List (String × Nat × Option ExceptionRecord) :=
  let allExceptions := zRangeByScore st.allZSet
  let exceptions := allExceptions.map
    (fun h => (h, (st.counts h).getD 0, st.records h))
  (exceptions.length, exceptions)

/-- One `POST /exceptions` request: body fields and the clock value during
the request. -/
structure RecordCall where
  message : String
  zipFile : String
  now : Nat
deriving DecidableEq

/-- Whether the request body passes the handler's validation. -/
def validCall (message zipFile : String) : Bool :=
  !(message = "" || zipFile = "")

/-- The store state after a sequence of `POST /exceptions` requests handled
one at a time. -/
def runState (hash : String → String) : List RecordCall → StoreState → StoreState
  | [], st => st
  | c :: cs, st => runState hash cs (postExceptions hash st c.message c.zipFile c.now).1

/-- How many requests of the sequence passed validation and mapped to the
fingerprint `h`. -/
def hashMatchCount (hash : String → String) (h : String)
    (ops : List RecordCall) : Nat :=
  ops.countP (fun c => validCall c.message c.zipFile
    && (hashMessage hash c.message == h))

/-- How many requests of the sequence passed validation and normalized to
`nm`. -/
def normMatchCount (nm : String) (ops : List RecordCall) : Nat :=
  ops.countP (fun c => validCall c.message c.zipFile
    && (normalizeMessage c.message == nm))

/-- The fingerprints of the validated requests, in request order (with
repetitions). -/
def recordedHashes (hash : String → String) (ops : List RecordCall) : List String :=
  (ops.filter (fun c => validCall c.message c.zipFile)).map
    (fun c => hashMessage hash c.message)

/-- Fold a list into `acc`, appending each element not seen before: the
first-observed (insertion-order) enumeration of its distinct elements. -/
def firstSeen (acc : List String) : List String → List String
  | [] => acc
  | h :: t => firstSeen (if h ∈ acc then acc else acc ++ [h]) t

/-- The enumeration returned by `GET /exceptions` after a request sequence
handled from the empty store. -/
def listAllAfter (hash : String → String) (ops : List RecordCall) :
    List (String × Nat × Option ExceptionRecord) :=
  (getAllExceptions (runState hash ops emptyState)).2

/-! ## Interleaving semantics of concurrent `POST /exceptions` handlers

The handler body between its `await` points is synchronous.  One in-flight
request is a thread whose atomic actions are exactly the four awaited Redis
commands of the handler, in program order: read the counter (and compute
`count = read + 1` in the same synchronous segment), `hSet` the record,
`set` the counter, `zAdd` the member.  A schedule interleaves the actions of
the threads; only requests that pass validation reach these actions. -/

/-- One in-flight validated `POST /exceptions` request: its body fields, the
clock during the request, its program counter over the four awaited Redis
commands, and the `count` local variable (meaningful once `pc ≥ 1`). -/
structure Thread where
  message : String
  zipFile : String
  now : Nat
  pc : Nat
  localCount : Nat
deriving DecidableEq

/-- One atomic action of a handler thread against the shared store. -/
def threadStep (hash : String → String) (st : StoreState) (th : Thread) :
    StoreState × Thread :=
  let key := hashMessage hash th.message
  match th.pc with
  | 0 => (st, { th with pc := 1, localCount := (st.counts key).getD 0 + 1 })
  | 1 => ({ st with records :=
              update st.records key ⟨th.message, th.zipFile, th.now, th.localCount⟩ },
          { th with pc := 2 })
  | 2 => ({ st with counts := update st.counts key th.localCount },
          { th with pc := 3 })
  | 3 => ({ st with allZSet := zAdd st.allZSet key th.now },
          { th with pc := 4 })
  | _ => (st, th)

/-- Run the named thread one step at each schedule entry. -/
def runSchedule (hash : String → String) :
    List Nat → StoreState × List Thread → StoreState × List Thread
  | [], cfg => cfg
  | i :: rest, (st, ths) =>
    match ths.get? i with
    | none => runSchedule hash rest (st, ths)
    | some th =>
      let s := threadStep hash st th
      runSchedule hash rest (s.1, ths.set i s.2)

/-! ## Ingestion orchestrator (`upload-service/src/index.js`) -/

/-- JavaScript `String.prototype.includes`: substring containment. -/
def jsIncludes (s pat : String) : Bool :=
  decide (pat.data <:+: s.data)

/-- The `messageFile` predicate of `processExtractedFiles`:
`f.toLowerCase().includes('message') || f.toLowerCase().includes('support')`. -/
def isMessageFileName (f : String) : Bool :=
  jsIncludes (jsToLower f) "message" || jsIncludes (jsToLower f) "support"

/-- The `exceptionFile` predicate of `processExtractedFiles`:
case-insensitive containment of `exception`, `error` or `log`. -/
def isExceptionFileName (f : String) : Bool :=
  jsIncludes (jsToLower f) "exception" || jsIncludes (jsToLower f) "error"
    || jsIncludes (jsToLower f) "log"

/-- `files.find(...)` for the support-message file: the first member name
matching the predicate, if any. -/
def selectMessageFile (files : List String) : Option String :=
  files.find? isMessageFileName

/-- `files.find(...)` for the exception file. -/
def selectExceptionFile (files : List String) : Option String :=
  files.find? isExceptionFileName

/-- What a `makeHttpRequest` promise resolves with — it never rejects:
a parsed JSON response body (only the fields the orchestrator reads are
kept), `{raw: body}` for an unparseable body, or `{error: message}` when the
request errors. -/
inductive HttpResult
  | parsed (isDuplicate : Bool) (duplicateCount : Nat)
  | raw (body : String)
  | connError (msg : String)
deriving DecidableEq

/-- JavaScript truthiness of `storeResult.isDuplicate`: reading the field of
a `{raw: ...}` or `{error: ...}` object gives `undefined`, which is falsy. -/
def isDuplicateTruthy : HttpResult → Bool
  | .parsed d _ => d
  | .raw _ => false
  | .connError _ => false

/-- `storeResult.duplicateCount` (only read on the truthy branch, where the
response was parsed; `undefined` elsewhere is modelled as `0`). -/
def duplicateCountField : HttpResult → Nat
  | .parsed _ c => c
  | .raw _ => 0
  | .connError _ => 0

/-- A notification posted to the notify service. -/
structure Notification where
  type : String
  title : String
  message : String
  zipFile : String
deriving DecidableEq

/-- The environment `processExtractedFiles` runs in: the extracted member
names in directory order, `extractFileContent` for each member (`none` for a
read failure), and what the two `makeHttpRequest` calls resolve with. -/
structure ProcessEnv where
  files : List String
  content : String → Option String
  storeResponse : HttpResult
  notifyResponse : HttpResult

/-- Workflow 1 of `processExtractedFiles`: notify support of the first
message file whose content is truthy (read succeeded and non-empty after the
read's trim). -/
def workflowOneNotifications (env : ProcessEnv) (fileName : String) :
    List Notification :=
  match selectMessageFile env.files with
  | none => []
  | some f =>
    match env.content f with
    | none => []
    | some c =>
      if c = "" then []
      else [{ type := "message", title := "New Support Message",
              message := c, zipFile := fileName }]

/-- Workflow 2 of `processExtractedFiles`: post the first exception file's
truthy content to the registry; notify support only when
`storeResult.isDuplicate` is truthy, otherwise do nothing further. -/
def workflowTwoNotifications (env : ProcessEnv) (fileName : String) :
    List Notification :=
  match selectExceptionFile env.files with
  | none => []
  | some f =>
    match env.content f with
    | none => []
    | some c =>
      if c = "" then []
      else
        if isDuplicateTruthy env.storeResponse then
          [{ type := "duplicate_exception",
             title := "Duplicate Exception (Occurrence #" ++
               toString (duplicateCountField env.storeResponse) ++ ")",
             message := c, zipFile := fileName }]
        else []

/-- `processExtractedFiles` of `upload-service/src/index.js`: the
notifications sent by the two workflows, in program order, and whether the
function returns normally (it always does — `makeHttpRequest` resolves
errors instead of rejecting — so the upload handler's success response
follows). -/
def processExtractedFiles (env : ProcessEnv) (fileName : String) :
    List Notification × Bool :=
  (workflowOneNotifications env fileName ++ workflowTwoNotifications env fileName,
    true)

/-! ## Basic lemmas -/

theorem update_apply {α : Type} (f : String → Option α) (k : String) (v : α)
    (x : String) : update f k v x = if x = k then some v else f x := rfl

theorem validCall_true (m z : String) (hm : m ≠ "") (hz : z ≠ "") :
    validCall m z = true := by
  simp [validCall, hm, hz]

theorem validCall_false {m z : String} (h : m = "" ∨ z = "") :
    validCall m z = false := by
  rcases h with h | h <;> simp [validCall, h]

/-- The per-fingerprint counter after a request sequence: untouched when no
validated request mapped to the fingerprint, otherwise the initial value plus
the number of such requests. -/
theorem counts_runState (hash : String → String) (ops : List RecordCall) :
    ∀ (st : StoreState) (h : String),
      (runState hash ops st).counts h =
        if hashMatchCount hash h ops = 0 then st.counts h
        else some ((st.counts h).getD 0 + hashMatchCount hash h ops) := by
  induction ops with
  | nil =>
    intro st h
    simp [runState, hashMatchCount]
  | cons c cs ih =>
    intro st h
    by_cases hv : c.message = "" ∨ c.zipFile = ""
    · have hst : (postExceptions hash st c.message c.zipFile c.now).1 = st := by
        simp [postExceptions, hv]
      have hpred : (validCall c.message c.zipFile
          && (hashMessage hash c.message == h)) = false := by
        simp [validCall_false hv]
      rw [runState, hst, ih]
      simp [hashMatchCount, List.countP_cons, hpred]
    · rw [runState, ih]
      rcases not_or.mp hv with ⟨h1, h2⟩
      have hvb := validCall_true c.message c.zipFile h1 h2
      by_cases hk : hashMessage hash c.message = h
      · have hcnt : hashMatchCount hash h (c :: cs) = hashMatchCount hash h cs + 1 := by
          simp [hashMatchCount, List.countP_cons, hvb, hk]
        have hc' : (postExceptions hash st c.message c.zipFile c.now).1.counts h =
            some ((st.counts h).getD 0 + 1) := by
          simp [postExceptions, hv, update_apply, hk]
        rw [hc', hcnt]
        by_cases h0 : hashMatchCount hash h cs = 0
        · simp [h0]
        · simp only [h0, if_false, Nat.succ_ne_zero, if_neg]
          simp [h0]
          omega
      · have hcnt : hashMatchCount hash h (c :: cs) = hashMatchCount hash h cs := by
          simp [hashMatchCount, List.countP_cons, hk]
        have hk' : ¬ (h = hashMessage hash c.message) := fun he => hk he.symm
        have hc' : (postExceptions hash st c.message c.zipFile c.now).1.counts h =
            st.counts h := by
          simp [postExceptions, hv, update_apply, hk']
        rw [hc', hcnt]

/-- For an injective digest, counting requests by fingerprint is counting
them by normalized message. -/
theorem hashMatchCount_of_injective (hash : String → String)
    (hinj : Function.Injective hash) (m : String) (ops : List RecordCall) :
    hashMatchCount hash (hashMessage hash m) ops =
      normMatchCount (normalizeMessage m) ops := by
  unfold hashMatchCount normMatchCount
  refine List.countP_congr ?_
  intro c _
  simp only [Bool.and_eq_true, beq_iff_eq, hashMessage]
  constructor
  · rintro ⟨hval, hcong⟩
    exact ⟨hval, hinj hcong⟩
  · rintro ⟨hval, hcong⟩
    exact ⟨hval, congrArg hash hcong⟩

/-- `ZADD` on the member list: a known member keeps the member list, an
unknown member is appended. -/
theorem zAdd_map_fst (zs : List (String × Nat)) (m : String) (s : Nat) :
    (zAdd zs m s).map Prod.fst =
      if m ∈ zs.map Prod.fst then zs.map Prod.fst else zs.map Prod.fst ++ [m] := by
  induction zs with
  | nil => simp [zAdd]
  | cons p ps ih =>
    by_cases hp : p.1 = m
    · simp [zAdd, hp]
    · have hp' : ¬ (m = p.1) := fun he => hp he.symm
      simp only [zAdd, if_neg hp, List.map_cons, ih, List.mem_cons]
      by_cases hm : m ∈ ps.map Prod.fst
      · simp [hm, hp']
      · simp [hm, hp']

/-- `ZADD` sets the member's score — also when the member already exists. -/
theorem scoreOf_zAdd (zs : List (String × Nat)) (m : String) (s : Nat) :
    scoreOf (zAdd zs m s) m = some s := by
  induction zs with
  | nil => simp [zAdd, scoreOf]
  | cons p ps ih =>
    by_cases hp : p.1 = m
    · simp [zAdd, hp, scoreOf]
    · simp [zAdd, hp, scoreOf, ih]

/-- The members of `exceptions:all` after a request sequence are the
validated fingerprints folded in first-appended order. -/
theorem allZSet_runState (hash : String → String) (ops : List RecordCall) :
    ∀ st : StoreState,
      (runState hash ops st).allZSet.map Prod.fst =
        firstSeen (st.allZSet.map Prod.fst) (recordedHashes hash ops) := by
  induction ops with
  | nil =>
    intro st
    simp [runState, recordedHashes, firstSeen]
  | cons c cs ih =>
    intro st
    by_cases hv : c.message = "" ∨ c.zipFile = ""
    · have hst : (postExceptions hash st c.message c.zipFile c.now).1 = st := by
        simp [postExceptions, hv]
      have hrec : recordedHashes hash (c :: cs) = recordedHashes hash cs := by
        simp [recordedHashes, List.filter_cons, validCall_false hv]
      rw [runState, hst, ih, hrec]
    · rcases not_or.mp hv with ⟨h1, h2⟩
      have hvb := validCall_true c.message c.zipFile h1 h2
      have hrec : recordedHashes hash (c :: cs) =
          hashMessage hash c.message :: recordedHashes hash cs := by
        simp [recordedHashes, List.filter_cons, hvb]
      have hz : (postExceptions hash st c.message c.zipFile c.now).1.allZSet =
          zAdd st.allZSet (hashMessage hash c.message) c.now := by
        simp [postExceptions, hv]
      rw [runState, ih, hz, zAdd_map_fst, hrec, firstSeen]

theorem mem_firstSeen (l : List String) :
    ∀ (acc : List String) (k : String), k ∈ firstSeen acc l ↔ k ∈ acc ∨ k ∈ l := by
  induction l with
  | nil =>
    intro acc k
    simp [firstSeen]
  | cons h t ih =>
    intro acc k
    rw [firstSeen]
    by_cases hm : h ∈ acc
    · simp only [if_pos hm, ih, List.mem_cons]
      constructor
      · rintro (hk | hk)
        · exact Or.inl hk
        · exact Or.inr (Or.inr hk)
      · rintro (hk | rfl | hk)
        · exact Or.inl hk
        · exact Or.inl hm
        · exact Or.inr hk
    · simp only [if_neg hm, ih, List.mem_append, List.mem_singleton, List.mem_cons]
      tauto

theorem nodup_firstSeen (l : List String) :
    ∀ acc : List String, acc.Nodup → (firstSeen acc l).Nodup := by
  induction l with
  | nil =>
    intro acc hacc
    simpa [firstSeen] using hacc
  | cons h t ih =>
    intro acc hacc
    rw [firstSeen]
    by_cases hm : h ∈ acc
    · simpa [if_pos hm] using ih acc hacc
    · refine ih _ ?_
      rw [if_neg hm]
      simp [List.nodup_append, hacc, hm]

/-- Whitespace is untouched by `toLowerCase`. -/
theorem lowerChar_of_space {c : Char} (h : isSpaceChar c = true) :
    lowerChar c = c := by
  simp only [isSpaceChar, Bool.or_eq_true, decide_eq_true_eq] at h
  rcases h with ((((rfl | rfl) | rfl) | rfl) | rfl) | rfl <;> decide

/-- A whitespace-only message normalizes to the empty string. -/
theorem normalizeMessage_of_space (m : String)
    (h : ∀ c ∈ m.data, isSpaceChar c = true) : normalizeMessage m = "" := by
  unfold normalizeMessage jsTrim jsToLower trimChars
  have h1 : (m.data.map lowerChar).dropWhile isSpaceChar = [] := by
    rw [List.dropWhile_eq_nil_iff]
    intro x hx
    rcases List.mem_map.mp hx with ⟨c, hc, rfl⟩
    rw [lowerChar_of_space (h c hc)]
    exact h c hc
  rw [h1]
  rfl

/-! ## Claim theorems -/

/-- C1: in a sequence of `Record` calls, the n-th validated call whose
message normalizes to a given value returns `occurrenceCount = n` and
`isDuplicate = (n > 1)`; here the call under scrutiny is the last one, `n`
being one more than the number of prior validated calls with the same
normalized message (collision-freeness of the digest assumed, as the spec
does). -/
theorem record_nth_occurrence (hash : String → String)
    (hinj : Function.Injective hash) (ops : List RecordCall)
    (m a : String) (t : Nat) (hm : m ≠ "") (ha : a ≠ "") :
    (postExceptions hash (runState hash ops emptyState) m a t).2 =
      RecordResult.ok (decide (normMatchCount (normalizeMessage m) ops + 1 > 1))
        (normMatchCount (normalizeMessage m) ops + 1) := by
  have hv : ¬ (m = "" ∨ a = "") := by tauto
  have hc := counts_runState hash ops emptyState (hashMessage hash m)
  rw [hashMatchCount_of_injective hash hinj m ops] at hc
  have hcnt : ((runState hash ops emptyState).counts (hashMessage hash m)).getD 0 =
      normMatchCount (normalizeMessage m) ops := by
    rw [hc]
    by_cases h0 : normMatchCount (normalizeMessage m) ops = 0
    · simp [h0, emptyState]
    · simp [h0, emptyState]
  simp [postExceptions, hv, hcnt]

/-- C1 witness: `Record("X","a.zip")` then `Record("X","c.zip")` gives
`{isDuplicate: true, occurrenceCount: 2}`. -/
theorem record_nth_occurrence_witness :
    (postExceptions (fun s => s)
        (runState (fun s => s) [⟨"X", "a.zip", 0⟩] emptyState) "X" "c.zip" 1).2 =
      RecordResult.ok true 2 := by
  rw [record_nth_occurrence (fun s => s) (fun a b hab => hab) [⟨"X", "a.zip", 0⟩]
    "X" "c.zip" 1 (by decide) (by decide)]
  decide

/-- C3: normalization is the pure lower-case-and-trim function, and
fingerprinting factors through it: messages with equal normalizations get
the same fingerprint, and recording both — with any source archives —
increments one shared counter (the second call reports the counter advanced
by two from its initial value, and is flagged a duplicate). -/
theorem normalize_equal_shared_counter (hash : String → String)
    (st : StoreState) (m₁ m₂ a₁ a₂ : String) (t₁ t₂ : Nat)
    (hn : normalizeMessage m₁ = normalizeMessage m₂)
    (hm₁ : m₁ ≠ "") (hm₂ : m₂ ≠ "") (ha₁ : a₁ ≠ "") (ha₂ : a₂ ≠ "") :
    hashMessage hash m₁ = hashMessage hash m₂ ∧
    (postExceptions hash (postExceptions hash st m₁ a₁ t₁).1 m₂ a₂ t₂).2 =
      RecordResult.ok true ((st.counts (hashMessage hash m₁)).getD 0 + 2) := by
  have hkey : hashMessage hash m₁ = hashMessage hash m₂ := by
    unfold hashMessage
    rw [hn]
  refine ⟨hkey, ?_⟩
  have hv₁ : ¬ (m₁ = "" ∨ a₁ = "") := by tauto
  have hv₂ : ¬ (m₂ = "" ∨ a₂ = "") := by tauto
  simp [postExceptions, hv₁, hv₂, update_apply, ← hkey]

/-- C3 witness: `"NullPointerException"` and `"  nullpointerexception  "`
share a fingerprint and a counter across different archives. -/
theorem normalize_equal_shared_counter_witness :
    hashMessage (fun s => s) "NullPointerException" =
      hashMessage (fun s => s) "  nullpointerexception  " ∧
    (postExceptions (fun s => s)
        (postExceptions (fun s => s) emptyState "NullPointerException" "a.zip" 0).1
        "  nullpointerexception  " "b.zip" 1).2 =
      RecordResult.ok true 2 := by
  have h := normalize_equal_shared_counter (fun s => s) emptyState
    "NullPointerException" "  nullpointerexception  " "a.zip" "b.zip" 0 1
    (by decide) (by decide) (by decide) (by decide) (by decide)
  refine ⟨h.1, ?_⟩
  rw [h.2]
  decide

/-- C5: a search response is exact-match: `matchCount` equals the length of
the match list and is never more than 1. -/
theorem search_match_count_at_most_one (hash : String → String)
    (st : StoreState) (q : String) (n : Nat)
    (ms : List (Option ExceptionRecord)) (d : Bool) (c : Nat)
    (h : getExceptionsSearch hash st q = SearchResult.ok n ms d c) :
    n = ms.length ∧ n ≤ 1 := by
  by_cases hq : q = ""
  · simp [getExceptionsSearch, hq] at h
  · simp only [getExceptionsSearch, if_neg hq] at h
    by_cases hc : (st.counts (hashMessage hash q)).getD 0 > 0
    · rw [if_pos hc] at h
      simp only [SearchResult.ok.injEq] at h
      obtain ⟨hn, hms, -, -⟩ := h
      subst hn
      subst hms
      simp
    · rw [if_neg hc] at h
      simp only [SearchResult.ok.injEq] at h
      obtain ⟨hn, hms, -, -⟩ := h
      subst hn
      subst hms
      simp

/-- C5 witness: a search on the empty store has `matchCount = 0`. -/
theorem search_match_count_at_most_one_witness :
    (0 = ([] : List (Option ExceptionRecord)).length ∧ 0 ≤ 1) :=
  search_match_count_at_most_one (fun s => s) emptyState "x" 0 [] false 0
    (by decide)

/-- C6: `Record` with an empty message or an empty archive, and `Search`
with an empty query, return the 400 validation error with the store state
untouched. -/
theorem validation_invalid_request (hash : String → String) (st : StoreState)
    (m a : String) (t : Nat) :
    postExceptions hash st "" a t =
      (st, RecordResult.error 400 "Missing required fields: message, zipFile") ∧
    postExceptions hash st m "" t =
      (st, RecordResult.error 400 "Missing required fields: message, zipFile") ∧
    getExceptionsSearch hash st "" =
      SearchResult.error 400 "Missing required query parameter: query" := by
  refine ⟨?_, ?_, ?_⟩ <;> simp [postExceptions, getExceptionsSearch]

/-- C7: searching for a query whose normalized message was never recorded
returns the successful empty response, not an error (collision-freeness of
the digest assumed, as the spec does). -/
theorem search_unknown_returns_empty (hash : String → String)
    (hinj : Function.Injective hash) (ops : List RecordCall) (q : String)
    (hq : q ≠ "") (hnew : normMatchCount (normalizeMessage q) ops = 0) :
    getExceptionsSearch hash (runState hash ops emptyState) q =
      SearchResult.ok 0 [] false 0 := by
  have hc := counts_runState hash ops emptyState (hashMessage hash q)
  rw [hashMatchCount_of_injective hash hinj q ops, hnew] at hc
  have hc' : (runState hash ops emptyState).counts (hashMessage hash q) = none := by
    rw [hc]
    simp [emptyState]
  simp [getExceptionsSearch, hq, hc']

/-- C7 witness: after recording `"seen"`, searching `"never seen before"`
returns the empty success response. -/
theorem search_unknown_returns_empty_witness :
    getExceptionsSearch (fun s => s)
        (runState (fun s => s) [⟨"seen", "a.zip", 0⟩] emptyState)
        "never seen before" =
      SearchResult.ok 0 [] false 0 :=
  search_unknown_returns_empty (fun s => s) (fun a b hab => hab)
    [⟨"seen", "a.zip", 0⟩] "never seen before" (by decide) (by decide)

/-- C9: a non-empty whitespace-only message passes validation (only the
empty string is falsy), normalizes to the empty string, and therefore maps
to the single fingerprint of the empty string and bumps that one shared
counter. -/
theorem whitespace_only_shared_fingerprint (hash : String → String)
    (st : StoreState) (m a : String) (t : Nat) (hm : m ≠ "") (ha : a ≠ "")
    (hws : ∀ c ∈ m.data, isSpaceChar c = true) :
    normalizeMessage m = "" ∧
    hashMessage hash m = hash "" ∧
    (postExceptions hash st m a t).2 =
      RecordResult.ok (decide ((st.counts (hash "")).getD 0 + 1 > 1))
        ((st.counts (hash "")).getD 0 + 1) ∧
    (postExceptions hash st m a t).1.counts (hash "") =
      some ((st.counts (hash "")).getD 0 + 1) := by
  have hn := normalizeMessage_of_space m hws
  have hkey : hashMessage hash m = hash "" := by
    unfold hashMessage
    rw [hn]
  have hv : ¬ (m = "" ∨ a = "") := by tauto
  refine ⟨hn, hkey, ?_, ?_⟩ <;> simp [postExceptions, hv, hkey, update_apply]

/-- C9 witness: recording `" "` and `"\t"` on the empty store shares one
counter under the empty-string fingerprint. -/
theorem whitespace_only_shared_fingerprint_witness :
    normalizeMessage " " = "" ∧
    hashMessage (fun s => s) " " = (fun s : String => s) "" ∧
    (postExceptions (fun s => s) emptyState " " "a.zip" 0).2 =
      RecordResult.ok (decide ((emptyState.counts ((fun s : String => s) "")).getD 0 + 1 > 1))
        ((emptyState.counts ((fun s : String => s) "")).getD 0 + 1) ∧
    (postExceptions (fun s => s) emptyState " " "a.zip" 0).1.counts
        ((fun s : String => s) "") =
      some ((emptyState.counts ((fun s : String => s) "")).getD 0 + 1) :=
  whitespace_only_shared_fingerprint (fun s => s) emptyState " " "a.zip" 0
    (by decide) (by decide) (by decide)

/-- C2: the handler's separate `GET` and `SET` of the counter lose updates
under interleaving.  With two concurrent `Record("X", ...)` handlers under
the schedule `[0, 1, 0, 0, 0, 1, 1, 1]` — both threads read the counter
before either writes — both calls run to completion (`pc = 4`) yet the final
counter for the shared fingerprint is 1, not 2; handling the same two calls
sequentially yields 2. -/
theorem concurrent_record_lost_update :
    ((runSchedule (fun s => s) [0, 1, 0, 0, 0, 1, 1, 1]
        (emptyState, [⟨"X", "a.zip", 1, 0, 0⟩, ⟨"X", "b.zip", 2, 0, 0⟩])).2.map
      Thread.pc = [4, 4]) ∧
    ((runSchedule (fun s => s) [0, 1, 0, 0, 0, 1, 1, 1]
        (emptyState, [⟨"X", "a.zip", 1, 0, 0⟩, ⟨"X", "b.zip", 2, 0, 0⟩])).1.counts
        (hashMessage (fun s => s) "X") = some 1) ∧
    ((runState (fun s => s) [⟨"X", "a.zip", 1⟩, ⟨"X", "b.zip", 2⟩]
        emptyState).counts (hashMessage (fun s => s) "X") = some 2) := by
  decide

/-- C4 (amended): after any request sequence, `GET /exceptions` returns
exactly one entry per distinct fingerprint ever validly recorded —
`totalUniqueExceptions` equals the number of distinct fingerprints — but the
entries are ordered by their current `zAdd` score (ascending, ties by
member), and a `Record` call sets its fingerprint's score to that call's
`Date.now()` even when the fingerprint is already known, so an entry's
position follows its latest occurrence rather than its first. -/
theorem listAll_unique_sorted_by_score (hash : String → String)
    (ops : List RecordCall) :
    (getAllExceptions (runState hash ops emptyState)).1 =
      (listAllAfter hash ops).length ∧
    ((listAllAfter hash ops).map (fun e => e.1)).Nodup ∧
    (∀ k, k ∈ (listAllAfter hash ops).map (fun e => e.1) ↔
      k ∈ recordedHashes hash ops) ∧
    (listAllAfter hash ops).length = (recordedHashes hash ops).toFinset.card ∧
    List.Sorted zle (List.insertionSort zle (runState hash ops emptyState).allZSet) ∧
    (∀ zs m s, scoreOf (zAdd zs m s) m = some s) := by
  have hfirst : (runState hash ops emptyState).allZSet.map Prod.fst =
      firstSeen [] (recordedHashes hash ops) := by
    have h := allZSet_runState hash ops emptyState
    simpa [emptyState] using h
  have hnodup : ((runState hash ops emptyState).allZSet.map Prod.fst).Nodup := by
    rw [hfirst]
    exact nodup_firstSeen _ [] List.nodup_nil
  have hmem : ∀ k, k ∈ (runState hash ops emptyState).allZSet.map Prod.fst ↔
      k ∈ recordedHashes hash ops := by
    intro k
    rw [hfirst, mem_firstSeen]
    simp
  have hkeys : (listAllAfter hash ops).map (fun e => e.1) =
      zRangeByScore (runState hash ops emptyState).allZSet := by
    simp [listAllAfter, getAllExceptions, zRangeByScore, List.map_map]
  have hperm : List.Perm (zRangeByScore (runState hash ops emptyState).allZSet)
      ((runState hash ops emptyState).allZSet.map Prod.fst) :=
    (List.perm_insertionSort zle _).map Prod.fst
  refine ⟨rfl, ?_, ?_, ?_, List.sorted_insertionSort zle _, scoreOf_zAdd⟩
  · rw [hkeys]
    exact hperm.nodup_iff.mpr hnodup
  · intro k
    rw [hkeys, hperm.mem_iff]
    exact hmem k
  · have hlen : (listAllAfter hash ops).length =
        ((runState hash ops emptyState).allZSet.map Prod.fst).length := by
      have := congrArg List.length hkeys
      simpa [hperm.length_eq] using this
    rw [hlen, ← List.toFinset_card_of_nodup hnodup]
    congr 1
    ext k
    simp only [List.mem_toFinset]
    exact hmem k

/-- C4 counterexample: recording messages `"a"`, `"b"`, `"a"` at strictly
increasing clock values enumerates `["b", "a"]` — the re-recorded
fingerprint moved to the end — while first-observed (insertion) order is
`["a", "b"]`. -/
theorem listAll_not_first_observed :
    ((getAllExceptions (runState (fun s => s)
        [⟨"a", "z1", 1⟩, ⟨"b", "z2", 2⟩, ⟨"a", "z3", 3⟩] emptyState)).2.map
      (fun e => e.1) = ["b", "a"]) ∧
    (firstSeen [] (recordedHashes (fun s => s)
        [⟨"a", "z1", 1⟩, ⟨"b", "z2", 2⟩, ⟨"a", "z3", 3⟩]) = ["a", "b"]) ∧
    (["b", "a"] : List String) ≠ ["a", "b"] := by
  decide

/-- C8: a member name is classified as a message file exactly when it
case-insensitively contains `message` or `support`, and as an exception file
exactly when it case-insensitively contains `exception`, `error` or `log`;
the selected file of each kind is the first match in directory order (all
earlier names fail the predicate), and being an `Option`, at most one file
of each kind is selected. -/
theorem member_file_classification (files : List String) (f : String) :
    (isMessageFileName f = true ↔
      "message".data <:+: (jsToLower f).data ∨
        "support".data <:+: (jsToLower f).data) ∧
    (isExceptionFileName f = true ↔
      "exception".data <:+: (jsToLower f).data ∨
        "error".data <:+: (jsToLower f).data ∨
        "log".data <:+: (jsToLower f).data) ∧
    (selectMessageFile files = some f ↔
      isMessageFileName f = true ∧ ∃ pre suf, files = pre ++ f :: suf ∧
        ∀ g ∈ pre, isMessageFileName g = false) ∧
    (selectExceptionFile files = some f ↔
      isExceptionFileName f = true ∧ ∃ pre suf, files = pre ++ f :: suf ∧
        ∀ g ∈ pre, isExceptionFileName g = false) := by
  refine ⟨?_, ?_, ?_, ?_⟩
  · simp [isMessageFileName, jsIncludes]
  · simp [isExceptionFileName, jsIncludes, or_assoc]
  · rw [selectMessageFile, List.find?_eq_some]
    simp [Bool.not_eq_true']
  · rw [selectExceptionFile, List.find?_eq_some]
    simp [Bool.not_eq_true']

/-- C10: when the registry request fails — the promise resolved with an
`{error}` object or an unparseable `{raw}` body — `storeResult.isDuplicate`
is falsy, so the exception workflow sends no notification, and
`processExtractedFiles` still completes normally with only workflow 1's
notifications, so the upload is reported successful. -/
theorem http_failure_treated_as_new (env : ProcessEnv) (fileName : String)
    (h : (∃ e, env.storeResponse = HttpResult.connError e) ∨
      (∃ b, env.storeResponse = HttpResult.raw b)) :
    isDuplicateTruthy env.storeResponse = false ∧
    workflowTwoNotifications env fileName = [] ∧
    processExtractedFiles env fileName =
      (workflowOneNotifications env fileName, true) := by
  have hd : isDuplicateTruthy env.storeResponse = false := by
    rcases h with ⟨e, he⟩ | ⟨b, hb⟩
    · rw [he]
      rfl
    · rw [hb]
      rfl
  have hw2 : workflowTwoNotifications env fileName = [] := by
    unfold workflowTwoNotifications
    cases hsel : selectExceptionFile env.files with
    | none => rfl
    | some f =>
      cases hcon : env.content f with
      | none => simp [hcon]
      | some c =>
        by_cases hc : c = ""
        · simp [hcon, hc]
        · simp [hcon, hc, hd]
  exact ⟨hd, hw2, by simp [processExtractedFiles, hw2]⟩

/-- C10 witness: a connection-refused registry call on an archive holding
`error.log` sends nothing from workflow 2 and still reports success. -/
theorem http_failure_treated_as_new_witness :
    isDuplicateTruthy
        (ProcessEnv.mk ["error.log"] (fun _ => some "boom")
          (HttpResult.connError "connect ECONNREFUSED") (HttpResult.parsed false 0)).storeResponse
      = false ∧
    workflowTwoNotifications
        (ProcessEnv.mk ["error.log"] (fun _ => some "boom")
          (HttpResult.connError "connect ECONNREFUSED") (HttpResult.parsed false 0)) "t.zip" = [] ∧
    processExtractedFiles
        (ProcessEnv.mk ["error.log"] (fun _ => some "boom")
          (HttpResult.connError "connect ECONNREFUSED") (HttpResult.parsed false 0)) "t.zip" =
      (workflowOneNotifications
        (ProcessEnv.mk ["error.log"] (fun _ => some "boom")
          (HttpResult.connError "connect ECONNREFUSED") (HttpResult.parsed false 0)) "t.zip", true) :=
  http_failure_treated_as_new
    (ProcessEnv.mk ["error.log"] (fun _ => some "boom")
      (HttpResult.connError "connect ECONNREFUSED") (HttpResult.parsed false 0)) "t.zip"
    (Or.inl ⟨"connect ECONNREFUSED", rfl⟩)
